import Mathlib

/-!
Verification development for the mython interpreter.

The lexer embedding below follows the line-buffered lexer draft
(`Lexer::TextLine::ReadLine` and `Lexer::NextToken`, src/lexer.cpp lines
80-299), which the design notes designate as the specified lexer.  The
runtime/evaluator embedding further down follows the completed runtime
draft (src/unnamed/part_000) and the statement evaluator
(second half of src/runtime.cpp).

Modelling conventions:
 - character streams are `List Char`; `EOF` is the empty list.  The C++
   `unget`-after-eof corner (which re-buffers the last character when the
   stream runs dry inside SkipSpaces/SkipComment and can make the real
   lexer loop on inputs ending in a space or comment) is not modelled;
   no claim exercises such inputs.
 - loops whose termination is not structural take a fuel argument; fuel
   exhaustion is the distinguished outcome `.fuel`, never identified with
   a lexer error.
 - `stoi` (used by `ReadNumber`) parses a C++ `int`: values above
   2147483647 raise `std::out_of_range`, modelled as `.stoiOutOfRange`.
-/

namespace Mython

/-- Token variants (src/lexer.cpp, namespace `token_type`). -/
inductive Tok where
  | number (n : Int)
  | id (s : String)
  | str (s : String)
  | chr (c : Char)
  | kwClass
  | kwReturn
  | kwIf
  | kwElse
  | kwDef
  | newline
  | kwPrint
  | indent
  | dedent
  | kwAnd
  | kwOr
  | kwNot
  | eq
  | notEq
  | lessOrEq
  | greaterOrEq
  | kwNone
  | kwTrue
  | kwFalse
  | eof
deriving DecidableEq, Repr

/-- Failure modes of the lexer: `LexerError` with its message, the
`std::out_of_range` escaping from `stoi` in `ReadNumber`, and fuel
exhaustion of the model (not a behaviour of the code). -/
inductive LexFail where
  | lexError (msg : String)
  | stoiOutOfRange
  | fuel
deriving DecidableEq, Repr

/-- `Lexer::TextLine::SkipSpaces`: count and consume leading spaces. -/
def skipSpaces : List Char → Nat × List Char
  | ' ' :: rest =>
    let (n, r) := skipSpaces rest
    (n + 1, r)
  | cs => (0, cs)

/-- `Lexer::TextLine::SkipComment`: consume up to but not including the
next newline (the newline is ungot back into the stream). -/
def skipComment : List Char → List Char
  | [] => []
  | '\n' :: rest => '\n' :: rest
  | _ :: rest => skipComment rest

/-- `Lexer::TextLine::ReadString` (the draft with escape sequences):
reads the body of a string literal opened by quote `q`, handling the
escapes `\n \t \r \" \' \\` and raising `LexerError` on an unterminated
literal, an unrecognized escape, or a raw newline inside the literal. -/
def readStringLit (q : Char) (acc : String) : List Char → Except LexFail (String × List Char)
  | [] => .error (.lexError "String parsing error")
  | c :: rest =>
    if c = q then .ok (acc, rest)
    else if c = '\\' then
      match rest with
      | [] => .error (.lexError "String parsing error")
      | e :: rest2 =>
        if e = 'n' then readStringLit q (acc.push '\n') rest2
        else if e = 't' then readStringLit q (acc.push '\t') rest2
        else if e = 'r' then readStringLit q (acc.push '\r') rest2
        else if e = '"' then readStringLit q (acc.push '"') rest2
        else if e = '\'' then readStringLit q (acc.push '\'') rest2
        else if e = '\\' then readStringLit q (acc.push '\\') rest2
        else .error (.lexError "Unrecognized escape sequence")
    else if c = '\n' ∨ c = '\r' then .error (.lexError "Unexpected end of line")
    else readStringLit q (acc.push c) rest

/-- Value of a string of decimal digits. -/
def digitsToNat (ds : List Char) : Nat :=
  ds.foldl (fun a c => a * 10 + (c.toNat - '0'.toNat)) 0

/-- `stoi` applied to a digits-only string: parses a C++ `int` and
raises `std::out_of_range` above `INT_MAX`. -/
def stoi (ds : List Char) : Except LexFail Int :=
  let v := digitsToNat ds
  if v ≤ 2147483647 then .ok (Int.ofNat v) else .error .stoiOutOfRange

/-- Identifier continuation characters: `isalpha(ch) || ch == '_' || isdigit(ch)`. -/
def isIdentChar (c : Char) : Bool :=
  c.isAlpha || c = '_' || c.isDigit

/-- Keyword table of `Lexer::TextLine::ReadIdentifier`. -/
def classifyIdent (s : String) : Tok :=
  if s = "class" then .kwClass
  else if s = "return" then .kwReturn
  else if s = "if" then .kwIf
  else if s = "else" then .kwElse
  else if s = "def" then .kwDef
  else if s = "print" then .kwPrint
  else if s = "and" then .kwAnd
  else if s = "or" then .kwOr
  else if s = "not" then .kwNot
  else if s = "None" then .kwNone
  else if s = "True" then .kwTrue
  else if s = "False" then .kwFalse
  else .id s

/-- `Lexer::TextLine::ReadComparison` of the line-buffered draft: only
reached when the next character is `'='` (checked by the caller via
`in.peek()`), so it merely maps the first character to its token. -/
def cmpTok (c : Char) : Tok :=
  if c = '!' then .notEq
  else if c = '=' then .eq
  else if c = '<' then .lessOrEq
  else .greaterOrEq

/-- `Lexer::TextLine::IsEmpty`: no tokens, or only `Newline` tokens. -/
def lineIsEmpty (ts : List Tok) : Bool :=
  ts.all (· = .newline)

/-- `Lexer::TextLine::IsEofOnly`: no tokens, or only `Eof` tokens. -/
def lineIsEofOnly (ts : List Tok) : Bool :=
  ts.all (· = .eof)

/-- The do-while loop of `Lexer::TextLine::ReadLine` after the leading
`SkipSpaces`: reads one logical line of tokens.  On end of input it
appends a `Newline` (when the line already has a non-`Newline` token and
does not end in one) followed by `Eof`. -/
def readLineLoop : Nat → List Tok → List Char → Except LexFail (List Tok × List Char)
  | 0, _, _ => .error .fuel
  | _ + 1, acc, [] =>
    let acc1 :=
      if ¬ lineIsEmpty acc ∧ acc.getLast? ≠ some Tok.newline then acc ++ [Tok.newline] else acc
    .ok (acc1 ++ [Tok.eof], [])
  | n + 1, acc, c :: rest =>
    if c = ' ' then
      readLineLoop n acc (skipSpaces rest).2
    else if c = '#' then
      readLineLoop n acc (skipComment rest)
    else if c = '\n' then
      .ok (acc ++ [Tok.newline], rest)
    else if c = '"' ∨ c = '\'' then
      match readStringLit c "" rest with
      | .ok (s, r) => readLineLoop n (acc ++ [Tok.str s]) r
      | .error e => .error e
    else if c.isDigit then
      match stoi (c :: rest.takeWhile Char.isDigit) with
      | .ok v => readLineLoop n (acc ++ [Tok.number v]) (rest.dropWhile Char.isDigit)
      | .error e => .error e
    else if c.isAlpha ∨ c = '_' then
      readLineLoop n (acc ++ [classifyIdent (String.mk (c :: rest.takeWhile isIdentChar))])
        (rest.dropWhile isIdentChar)
    else if (c = '!' ∨ c = '=' ∨ c = '<' ∨ c = '>') ∧ rest.head? = some '=' then
      readLineLoop n (acc ++ [cmpTok c]) rest.tail
    else
      readLineLoop n (acc ++ [Tok.chr c]) rest

/-- A buffered logical line: its leading-space count and its tokens
(`Lexer::TextLine`). -/
structure TextLine where
  indent : Nat
  toks : List Tok
deriving DecidableEq, Repr

/-- `Lexer::TextLine::ReadLine`: leading `SkipSpaces` gives the indent,
then the token loop. -/
def readLine (fuel : Nat) (input : List Char) : Except LexFail (TextLine × List Char) :=
  let (ind, rest) := skipSpaces input
  match readLineLoop fuel [] rest with
  | .ok (toks, rest2) => .ok (⟨ind, toks⟩, rest2)
  | .error e => .error e

/-- The line-skipping loop at the head of `Lexer::NextToken`: read lines
until one is not `IsEmpty`. -/
def readNonEmptyLine : Nat → List Char → Except LexFail (TextLine × List Char)
  | 0, _ => .error .fuel
  | n + 1, input =>
    match readLine (n + 1) input with
    | .ok (line, rest) =>
      if lineIsEmpty line.toks then readNonEmptyLine n rest else .ok (line, rest)
    | .error e => .error e

/-- The chunk-appending body of `Lexer::NextToken` (src/lexer.cpp lines
90-124), iterated over the whole input: each iteration reads the next
non-empty line, checks its indent is even, emits `Indent`/`Dedent`
tokens from the indent delta (draining the stack only on an `IsEofOnly`
line), and appends the line's tokens.  The stream is complete once a
chunk carries `Eof` (later `NextToken` calls return `Eof` forever). -/
def tokenizeLoop : Nat → List Char → Nat → List Tok → Except LexFail (List Tok)
  | 0, _, _, _ => .error .fuel
  | n + 1, input, cur, acc =>
    match readNonEmptyLine (n + 1) input with
    | .error e => .error e
    | .ok (line, rest) =>
      if line.indent % 2 ≠ 0 then .error (.lexError "Bad indent size.")
      else
        let eofOnly := lineIsEofOnly line.toks
        let s1 : List Tok × Nat :=
          if ¬ eofOnly ∧ cur < line.indent then
            (acc ++ List.replicate ((line.indent - cur) / 2) Tok.indent, line.indent)
          else (acc, cur)
        let s2 : List Tok × Nat :=
          if ¬ eofOnly ∧ line.indent < s1.2 then
            (s1.1 ++ List.replicate ((s1.2 - line.indent) / 2) Tok.dedent, line.indent)
          else s1
        let s3 : List Tok × Nat :=
          if eofOnly ∧ 0 < s2.2 then
            (s2.1 ++ List.replicate (s2.2 / 2) Tok.dedent, line.indent)
          else s2
        let acc4 := s3.1 ++ line.toks
        if line.toks.contains Tok.eof then .ok acc4
        else tokenizeLoop n rest s3.2 acc4

/-- Full tokenization of an input stream by the line-buffered lexer,
starting at indentation 0. -/
def tokenize (fuel : Nat) (input : List Char) : Except LexFail (List Tok) :=
  tokenizeLoop fuel input 0 []

/-- `Lexer::ReadComparison` of the streaming lexer draft (src/lexer.cpp
lines 512-533): takes the first character and the next one from the
stream; a `'!'` not followed by `'='` raises `LexerError "! without ="`;
`.ok none` models `return false` (no token emitted, lexing continues). -/
def readComparisonStreaming (c : Char) (next : Option Char) : Except LexFail (Option Tok) :=
  if c = '!' then
    if next = some '=' then .ok (some Tok.notEq)
    else .error (.lexError "! without =")
  else if c = '=' ∧ next = some '=' then .ok (some Tok.eq)
  else if c = '<' ∧ next = some '=' then .ok (some Tok.lessOrEq)
  else if c = '>' ∧ next = some '=' then .ok (some Tok.greaterOrEq)
  else .ok none

/-!
## Runtime value model and evaluator

Embedding of the completed runtime draft (src/unnamed/part_000,
`namespace runtime`) and of the statement evaluator (`namespace ast`,
second half of src/runtime.cpp).

 - `ObjectHolder` is `Holder := Option Value`: an empty holder is
   `none`.  `Own` and `Share` both yield a holder referencing the same
   underlying object; lifetime/ownership is not observable in the model,
   aliasing of mutable `ClassInstance` state is, so instances live in an
   explicit heap and a holder stores their address (`Value.vinst`).
 - `Closure` is an association list with overwrite-on-insert
   (`cupdate`), mirroring `std::unordered_map` keyed lookup.
 - C++ exceptions (`std::runtime_error`, `std::out_of_range` from
   `.at`) unwind but leave all mutations performed so far in place, so
   the evaluator always returns the closure/context/heap as of the
   moment of the failure.
 - dereferencing a null `TryAs<...>` result and integer division by
   zero are undefined behaviour in the source; the embedding marks those
   outcomes with the distinguished failure `.ub`.
-/

mutual
/-- AST statements used by the claims (src/runtime.cpp, namespace `ast`):
`VariableValue` (dotted ids), `Assignment`, `FieldAssignment`,
`NewInstance` and `Div`. -/
inductive Stmt where
  | varValue (ids : List String)
  | assign (name : String) (rhs : Stmt)
  | fieldAssign (objIds : List String) (fieldName : String) (rhs : Stmt)
  | newInstance (cls : Cls) (args : List Stmt)
  | div (lhs rhs : Stmt)

/-- `runtime::Class`: name, methods in declaration order, optional parent. -/
inductive Cls where
  | mk (name : String) (methods : List Mthd) (parent : Option Cls)

/-- `runtime::Method`: name, formal parameter names, body. -/
inductive Mthd where
  | mk (name : String) (formalParams : List String) (body : Stmt)
end

def Cls.name : Cls → String
  | .mk n _ _ => n

def Cls.methods : Cls → List Mthd
  | .mk _ ms _ => ms

def Cls.parent : Cls → Option Cls
  | .mk _ _ p => p

def Mthd.name : Mthd → String
  | .mk n _ _ => n

def Mthd.formalParams : Mthd → List String
  | .mk _ ps _ => ps

def Mthd.body : Mthd → Stmt
  | .mk _ _ b => b

/-- Runtime values (`runtime::Object` subclasses): `Bool`, `Number`,
`String`, `Class`, `ClassInstance` (by heap address). -/
inductive Value where
  | vbool (b : Bool)
  | vnum (n : Int)
  | vstr (s : String)
  | vclass (c : Cls)
  | vinst (addr : Nat)

/-- `runtime::ObjectHolder`: empty (`None()`) or a reference to a value. -/
abbrev Holder := Option Value

/-- `runtime::Closure`: name-to-holder map. -/
abbrev Closure := List (String × Holder)

/-- A heap-resident `runtime::ClassInstance`: its class and its fields. -/
structure InstObj where
  cls : Cls
  fields : Closure

/-- The instance heap; `Value.vinst` addresses index into it. -/
abbrev Heap := List InstObj

/-- `map[k] = v`: overwrite the binding for `k` or append it. -/
def cupdate (k : String) (v : Holder) : Closure → Closure
  | [] => [(k, v)]
  | (k', v') :: rest => if k' = k then (k, v) :: rest else (k', v') :: cupdate k v rest

/-- `map.count(k)`/`map.at(k)` as an optional lookup. -/
def clookup (k : String) : Closure → Option Holder
  | [] => none
  | (k', v') :: rest => if k' = k then some v' else clookup k rest

/-- Heap read at an address. -/
def heapGet : Heap → Nat → Option InstObj
  | [], _ => none
  | o :: _, 0 => some o
  | _ :: t, n + 1 => heapGet t n

/-- Heap write at an (existing) address. -/
def heapSet : Heap → Nat → InstObj → Heap
  | [], _, _ => []
  | _ :: t, 0, o => o :: t
  | h :: t, n + 1, o => h :: heapSet t n o

/-- `runtime::Context`: the self-name slot set by `Assignment` and read
by `NewInstance`.  The output stream is irrelevant to the claims and is
omitted. -/
structure Ctx where
  selfName : String

/-- Failure modes of evaluation: a thrown `std::runtime_error` with its
message, a thrown `std::out_of_range` (from `map::at`), undefined
behaviour in the source (null `TryAs` dereference, division by zero),
and fuel exhaustion of the model. -/
inductive RtFail where
  | rtError (msg : String)
  | outOfRange
  | ub (what : String)
  | fuel

/-- The by-name method index built in `Class`'s constructor
(`methods_by_name_[methods_.at(i).name] = i` for `i` ascending, so a
later duplicate name overwrites an earlier one) combined with the local
lookup `methods_.at(methods_by_name_.at(name))`. -/
def localMethod (ms : List Mthd) (m : String) : Option Mthd :=
  ms.foldl (fun acc me => if me.name = m then some me else acc) none

/-- `Class::GetMethod` (src/unnamed/part_000 lines 129-136): local index
first, else delegate to the parent, else null. -/
def Cls.GetMethod : Cls → String → Option Mthd
  | .mk _ ms p, m =>
    match localMethod ms m with
    | some me => some me
    | none =>
      match p with
      | some par => par.GetMethod m
      | none => none

/-- The parent chain `C, parent(C), parent(parent(C)), …`. -/
def Cls.chain : Cls → List Cls
  | .mk n ms p =>
    .mk n ms p ::
      (match p with
       | some par => par.chain
       | none => [])

/-- `ClassInstance::HasMethod`: `GetMethod` succeeds and the formal
parameter count equals the argument count. -/
def Cls.hasMethodArity (c : Cls) (m : String) (k : Nat) : Bool :=
  match c.GetMethod m with
  | some me => me.formalParams.length = k
  | none => false

/-- `runtime::IsTrue` (src/unnamed/part_000 lines 50-68): empty holder
and `Class`/`ClassInstance` are false, `Bool` is its value, `Number` is
nonzero, `String` is non-empty.  The trailing `return true` of the
source is unreachable: every `Object` kind has a branch. -/
def IsTrue (h : Holder) : Bool :=
  match h with
  | none => false
  | some (.vbool b) => b
  | some (.vnum n) => n != 0
  | some (.vstr s) => s != ""
  | some (.vclass _) => false
  | some (.vinst _) => false

/-- The loop of `VariableValue::Execute`: look each id up in the current
map (`runtime_error` if absent), and whenever the value is a
`ClassInstance` continue the walk in its fields. -/
def walkVar (ids : List String) (cl : Closure) (hp : Heap) : Except RtFail Holder :=
  match ids with
  | [] => .ok none
  | id :: rest =>
    match clookup id cl with
    | none => .error (.rtError "Uncknown variable name")
    | some h =>
      match rest with
      | [] => .ok h
      | _ :: _ =>
        match h with
        | some (.vinst a) =>
          match heapGet hp a with
          | some obj => walkVar rest obj.fields hp
          | none => .error (.ub "dangling instance address")
        | _ => walkVar rest cl hp

/-- The path walk of `FieldAssignment::Execute` (src/runtime.cpp lines
254-259): `p_closure->at(id)` (throws `out_of_range` when absent) then
`TryAs<ClassInstance>()->Fields()` (null dereference when the value is
not an instance).  Returns the address of the instance whose fields the
final `p_closure` points into (`none` when the id path is empty and the
target is the original closure). -/
def walkFields (ids : List String) (cl : Closure) (hp : Heap) : Except RtFail (Option Nat) :=
  match ids with
  | [] => .ok none
  | id :: rest =>
    match clookup id cl with
    | none => .error .outOfRange
    | some h =>
      match h with
      | some (.vinst a) =>
        match heapGet hp a with
        | some obj =>
          match rest with
          | [] => .ok (some a)
          | _ :: _ => walkFields rest obj.fields hp
        | none => .error (.ub "dangling instance address")
      | _ => .error (.ub "null TryAs dereference in FieldAssignment")

/-- The per-call closure of `ClassInstance::Call` (src/unnamed/part_000
lines 108-114): `locals["self"] = Share(*this)`, then each formal
parameter name bound to the corresponding actual argument holder. -/
def buildLocals (addr : Nat) (formals : List String) (actuals : List Holder) : Closure :=
  (formals.zip actuals).foldl (fun c p => cupdate p.1 p.2 c)
    (cupdate "self" (some (.vinst addr)) [])

mutual
/-- `Statement::Execute` for the modelled nodes (src/runtime.cpp,
namespace `ast`), with explicit state threading: the returned closure,
context and heap reflect all mutations up to the result or the throw. -/
def execStmt : Nat → Stmt → Closure → Ctx → Heap → Except RtFail Holder × Closure × Ctx × Heap
  | 0, _, cl, ctx, hp => (.error .fuel, cl, ctx, hp)
  | n + 1, s, cl, ctx, hp =>
    match s with
    | .varValue ids => (walkVar ids cl hp, cl, ctx, hp)
    | .assign name rhs =>
      -- Assignment::Execute: SetSelfName first, evaluate the rhs in the
      -- same closure, then bind the name (src/runtime.cpp lines 238-242)
      match execStmt n rhs cl { ctx with selfName := name } hp with
      | (.ok v, cl1, ctx1, hp1) => (.ok v, cupdate name v cl1, ctx1, hp1)
      | (.error e, cl1, ctx1, hp1) => (.error e, cl1, ctx1, hp1)
    | .fieldAssign ids fieldName rhs =>
      -- FieldAssignment::Execute: resolve the object path first, then
      -- evaluate the rhs, then store (src/runtime.cpp lines 253-262)
      match walkFields ids cl hp with
      | .error e => (.error e, cl, ctx, hp)
      | .ok target =>
        match execStmt n rhs cl ctx hp with
        | (.ok v, cl1, ctx1, hp1) =>
          match target with
          | none => (.ok v, cupdate fieldName v cl1, ctx1, hp1)
          | some a =>
            match heapGet hp1 a with
            | some obj =>
              (.ok v, cl1, ctx1, heapSet hp1 a { obj with fields := cupdate fieldName v obj.fields })
            | none => (.error (.ub "dangling instance address"), cl1, ctx1, hp1)
        | (.error e, cl1, ctx1, hp1) => (.error e, cl1, ctx1, hp1)
    | .newInstance cls args =>
      -- NewInstance::Execute (src/runtime.cpp lines 466-481): insert the
      -- fresh instance into the caller's closure under context.self_name,
      -- then evaluate the arguments, then call __init__ when present with
      -- matching arity; finally return closure.at(self_name).
      let sname := ctx.selfName
      let addr := hp.length
      let hp1 := hp ++ [⟨cls, []⟩]
      let cl1 := cupdate sname (some (.vinst addr)) cl
      match clookup sname cl1 with
      | none => (.error .outOfRange, cl1, ctx, hp1)
      | some hSelf =>
        match hSelf with
        | some (.vinst a) =>
          match heapGet hp1 a with
          | none => (.error (.ub "dangling instance address"), cl1, ctx, hp1)
          | some obj =>
            if obj.cls.hasMethodArity "__init__" args.length then
              match execArgs n args cl1 ctx hp1 with
              | (.ok actuals, cl2, ctx2, hp2) =>
                match callMethod n a "__init__" actuals ctx2 hp2 with
                | (.ok _, ctx3, hp3) =>
                  match clookup sname cl2 with
                  | some h => (.ok h, cl2, ctx3, hp3)
                  | none => (.error .outOfRange, cl2, ctx3, hp3)
                | (.error e, ctx3, hp3) => (.error e, cl2, ctx3, hp3)
              | (.error e, cl2, ctx2, hp2) => (.error e, cl2, ctx2, hp2)
            else
              match clookup sname cl1 with
              | some h => (.ok h, cl1, ctx, hp1)
              | none => (.error .outOfRange, cl1, ctx, hp1)
        | _ => (.error (.ub "null TryAs dereference in NewInstance"), cl1, ctx, hp1)
    | .div lhs rhs =>
      -- Div::Execute (src/runtime.cpp lines 371-382): both sides are
      -- evaluated; if both hold Numbers the raw C++ `/` runs, with NO
      -- check of the divisor, so a zero divisor is undefined behaviour;
      -- any other combination throws "Invalid arguments in Div".
      match execStmt n lhs cl ctx hp with
      | (.ok lv, cl1, ctx1, hp1) =>
        match execStmt n rhs cl1 ctx1 hp1 with
        | (.ok rv, cl2, ctx2, hp2) =>
          match lv, rv with
          | some (.vnum a), some (.vnum b) =>
            if b = 0 then (.error (.ub "integer division by zero"), cl2, ctx2, hp2)
            else (.ok (some (.vnum (Int.tdiv a b))), cl2, ctx2, hp2)
          | _, _ => (.error (.rtError "Invalid arguments in Div"), cl2, ctx2, hp2)
        | (.error e, cl2, ctx2, hp2) => (.error e, cl2, ctx2, hp2)
      | (.error e, cl1, ctx1, hp1) => (.error e, cl1, ctx1, hp1)

/-- Left-to-right evaluation of actual arguments (the loops in
`MethodCall::Execute` and `NewInstance::Execute`). -/
def execArgs : Nat → List Stmt → Closure → Ctx → Heap →
    Except RtFail (List Holder) × Closure × Ctx × Heap
  | 0, _, cl, ctx, hp => (.error .fuel, cl, ctx, hp)
  | _ + 1, [], cl, ctx, hp => (.ok [], cl, ctx, hp)
  | n + 1, a :: rest, cl, ctx, hp =>
    match execStmt n a cl ctx hp with
    | (.ok v, cl1, ctx1, hp1) =>
      match execArgs n rest cl1 ctx1 hp1 with
      | (.ok vs, cl2, ctx2, hp2) => (.ok (v :: vs), cl2, ctx2, hp2)
      | (.error e, cl2, ctx2, hp2) => (.error e, cl2, ctx2, hp2)
    | (.error e, cl1, ctx1, hp1) => (.error e, cl1, ctx1, hp1)

/-- `ClassInstance::Call` (src/unnamed/part_000 lines 102-116): check
`HasMethod` (throw "Method not found." otherwise), resolve the method,
build the fresh per-call closure (`buildLocals`) and execute the body in
it.  The locals are discarded afterwards; context and heap mutations
survive. -/
def callMethod : Nat → Nat → String → List Holder → Ctx → Heap →
    Except RtFail Holder × Ctx × Heap
  | 0, _, _, _, ctx, hp => (.error .fuel, ctx, hp)
  | n + 1, addr, mname, actuals, ctx, hp =>
    match heapGet hp addr with
    | none => (.error (.ub "dangling instance address"), ctx, hp)
    | some obj =>
      if obj.cls.hasMethodArity mname actuals.length then
        match obj.cls.GetMethod mname with
        | some me =>
          match execStmt n me.body (buildLocals addr me.formalParams actuals) ctx hp with
          | (r, _, ctx1, hp1) => (r, ctx1, hp1)
        | none => (.error (.ub "GetMethod null after HasMethod"), ctx, hp)
      else (.error (.rtError "Method not found."), ctx, hp)
end

/-- `runtime::Equal` (src/unnamed/part_000 lines 158-176): `Bool`,
`Number` and `String` pairs compare underlying values; a left-hand
`ClassInstance` with a 1-argument `__eq__` delegates (the result read
through `TryAs<Bool>()->GetValue()`, a null dereference when the method
returns a non-Bool); two empty holders are equal; anything else throws. -/
def EqualFn (n : Nat) (lhs rhs : Holder) (ctx : Ctx) (hp : Heap) :
    Except RtFail Bool × Ctx × Heap :=
  match lhs, rhs with
  | some (.vbool a), some (.vbool b) => (.ok (a == b), ctx, hp)
  | some (.vnum a), some (.vnum b) => (.ok (a == b), ctx, hp)
  | some (.vstr a), some (.vstr b) => (.ok (a == b), ctx, hp)
  | _, _ =>
    match lhs with
    | some (.vinst a) =>
      match heapGet hp a with
      | some obj =>
        if obj.cls.hasMethodArity "__eq__" 1 then
          match callMethod n a "__eq__" [rhs] ctx hp with
          | (.ok (some (.vbool b)), ctx1, hp1) => (.ok b, ctx1, hp1)
          | (.ok _, ctx1, hp1) => (.error (.ub "null TryAs dereference on __eq__ result"), ctx1, hp1)
          | (.error e, ctx1, hp1) => (.error e, ctx1, hp1)
        else if lhs.isNone && rhs.isNone then (.ok true, ctx, hp)
        else (.error (.rtError "Cannot compare objects for equality"), ctx, hp)
      | none => (.error (.ub "dangling instance address"), ctx, hp)
    | _ =>
      if lhs.isNone && rhs.isNone then (.ok true, ctx, hp)
      else (.error (.rtError "Cannot compare objects for equality"), ctx, hp)

/-- `runtime::Less` (src/unnamed/part_000 lines 178-193): `Bool`,
`Number` and `String` pairs compare with `<`; a left-hand
`ClassInstance` with a 1-argument `__lt__` delegates; anything else
throws. -/
def LessFn (n : Nat) (lhs rhs : Holder) (ctx : Ctx) (hp : Heap) :
    Except RtFail Bool × Ctx × Heap :=
  match lhs, rhs with
  | some (.vbool a), some (.vbool b) => (.ok (!a && b), ctx, hp)
  | some (.vnum a), some (.vnum b) => (.ok (a < b), ctx, hp)
  | some (.vstr a), some (.vstr b) => (.ok (a < b), ctx, hp)
  | _, _ =>
    match lhs with
    | some (.vinst a) =>
      match heapGet hp a with
      | some obj =>
        if obj.cls.hasMethodArity "__lt__" 1 then
          match callMethod n a "__lt__" [rhs] ctx hp with
          | (.ok (some (.vbool b)), ctx1, hp1) => (.ok b, ctx1, hp1)
          | (.ok _, ctx1, hp1) => (.error (.ub "null TryAs dereference on __lt__ result"), ctx1, hp1)
          | (.error e, ctx1, hp1) => (.error e, ctx1, hp1)
        else (.error (.rtError "Cannot compare objects for less"), ctx, hp)
      | none => (.error (.ub "dangling instance address"), ctx, hp)
    | _ => (.error (.rtError "Cannot compare objects for less"), ctx, hp)

/-- `runtime::NotEqual = !Equal` (src/unnamed/part_000 lines 195-197). -/
def NotEqualFn (n : Nat) (lhs rhs : Holder) (ctx : Ctx) (hp : Heap) :
    Except RtFail Bool × Ctx × Heap :=
  match EqualFn n lhs rhs ctx hp with
  | (.ok b, ctx1, hp1) => (.ok (!b), ctx1, hp1)
  | (.error e, ctx1, hp1) => (.error e, ctx1, hp1)

/-- `runtime::Greater = !(Less || Equal)` (src/unnamed/part_000 lines
199-201); `||` short-circuits, so `Equal` only runs when `Less` is
false. -/
def GreaterFn (n : Nat) (lhs rhs : Holder) (ctx : Ctx) (hp : Heap) :
    Except RtFail Bool × Ctx × Heap :=
  match LessFn n lhs rhs ctx hp with
  | (.ok true, ctx1, hp1) => (.ok false, ctx1, hp1)
  | (.ok false, ctx1, hp1) =>
    match EqualFn n lhs rhs ctx1 hp1 with
    | (.ok b, ctx2, hp2) => (.ok (!b), ctx2, hp2)
    | (.error e, ctx2, hp2) => (.error e, ctx2, hp2)
  | (.error e, ctx1, hp1) => (.error e, ctx1, hp1)

/-- `runtime::LessOrEqual = !Greater` (src/unnamed/part_000 lines 203-205). -/
def LessOrEqualFn (n : Nat) (lhs rhs : Holder) (ctx : Ctx) (hp : Heap) :
    Except RtFail Bool × Ctx × Heap :=
  match GreaterFn n lhs rhs ctx hp with
  | (.ok b, ctx1, hp1) => (.ok (!b), ctx1, hp1)
  | (.error e, ctx1, hp1) => (.error e, ctx1, hp1)

/-- `runtime::GreaterOrEqual = !Less` (src/unnamed/part_000 lines 207-209). -/
def GreaterOrEqualFn (n : Nat) (lhs rhs : Holder) (ctx : Ctx) (hp : Heap) :
    Except RtFail Bool × Ctx × Heap :=
  match LessFn n lhs rhs ctx hp with
  | (.ok b, ctx1, hp1) => (.ok (!b), ctx1, hp1)
  | (.error e, ctx1, hp1) => (.error e, ctx1, hp1)

/-- Two heaps agree on the classes of all instances: every address live
in the first is live in the second with the same class (hence the same
method table).  Evaluation only ever appends instances or rewrites an
instance's fields, so it preserves this relation. -/
def ClsAgree (hp hp2 : Heap) : Prop :=
  ∀ a o, heapGet hp a = some o → ∃ o', heapGet hp2 a = some o' ∧ o'.cls = o.cls

/-! Concrete fixtures used to instantiate the general theorems. -/

/-- An `__init__(p)` that stores its argument into the field `mirror`:
`self.mirror = p`. -/
def mirrorInit : Mthd := .mk "__init__" ["p"] (.fieldAssign ["self"] "mirror" (.varValue ["p"]))

/-- A parentless class whose only method is `mirrorInit`. -/
def mirrorCls : Cls := .mk "C" [mirrorInit] none

/-- `x = C(x)`: the constructor argument mentions the name being
assigned, so it can only resolve if `NewInstance` has already inserted
the fresh instance under that name. -/
def mirrorProg : Stmt := .assign "x" (.newInstance mirrorCls [.varValue ["x"]])

/-- `x = C(nope)`: the constructor argument raises an unknown-variable
error after the fresh instance has already replaced the binding of `x`. -/
def clobberProg : Stmt := .assign "x" (.newInstance mirrorCls [.varValue ["nope"]])

/-- A one-parameter method `get(p)` returning `p`. -/
def demoMethod : Mthd := .mk "get" ["p"] (.varValue ["p"])

/-- A parentless class holding `demoMethod`. -/
def demoCls : Cls := .mk "Box" [demoMethod] none

/-- A base class defining the method `value()`. -/
def demoParent : Cls := .mk "Base" [.mk "value" [] (.varValue ["self"])] none

/-- A derived class with no own methods. -/
def demoChild : Cls := .mk "Derived" [] (some demoParent)

/-! ## Supporting lemmas -/

@[simp]
theorem clookup_cupdate_self (k : String) (v : Holder) (c : Closure) :
    clookup k (cupdate k v c) = some v := by
  induction c with
  | nil => simp [cupdate, clookup]
  | cons p rest ih =>
    by_cases h : p.1 = k <;> simp [cupdate, clookup, h, ih]

theorem clookup_cupdate_ne (k k' : String) (v : Holder) (c : Closure) (h : k' ≠ k) :
    clookup k (cupdate k' v c) = clookup k c := by
  induction c with
  | nil => simp [cupdate, clookup, h]
  | cons p rest ih =>
    by_cases h2 : p.1 = k' <;> by_cases h3 : p.1 = k <;>
      simp_all [cupdate, clookup]

@[simp]
theorem heapGet_append_length (hp : Heap) (o : InstObj) :
    heapGet (hp ++ [o]) hp.length = some o := by
  induction hp with
  | nil => simp [heapGet]
  | cons h t ih => simpa [heapGet] using ih

theorem heapGet_append_of_some (hp l : Heap) (a : Nat) (o : InstObj)
    (h : heapGet hp a = some o) : heapGet (hp ++ l) a = some o := by
  induction hp generalizing a with
  | nil => simp [heapGet] at h
  | cons x t ih =>
    cases a with
    | zero => simpa [heapGet] using h
    | succ a => exact ih a (by simpa [heapGet] using h)

@[simp]
theorem heapSet_append_length (hp : Heap) (o o' : InstObj) :
    heapSet (hp ++ [o]) hp.length o' = hp ++ [o'] := by
  induction hp with
  | nil => simp [heapSet]
  | cons h t ih => simpa [heapSet] using ih

theorem heapGet_heapSet_self (hp : Heap) (a : Nat) (o o' : InstObj)
    (h : heapGet hp a = some o) : heapGet (heapSet hp a o') a = some o' := by
  induction hp generalizing a with
  | nil => simp [heapGet] at h
  | cons x t ih =>
    cases a with
    | zero => simp [heapGet, heapSet]
    | succ a => exact ih a (by simpa [heapGet] using h)

theorem heapGet_heapSet_ne (hp : Heap) (a b : Nat) (o' : InstObj) (h : a ≠ b) :
    heapGet (heapSet hp a o') b = heapGet hp b := by
  induction hp generalizing a b with
  | nil => simp [heapSet]
  | cons x t ih =>
    cases a with
    | zero =>
      cases b with
      | zero => exact absurd rfl h
      | succ b => simp [heapGet, heapSet]
    | succ a =>
      cases b with
      | zero => simp [heapGet, heapSet]
      | succ b => simpa [heapGet, heapSet] using ih a b (by omega)

theorem ClsAgree.refl (hp : Heap) : ClsAgree hp hp :=
  fun _ o h => ⟨o, h, rfl⟩

theorem ClsAgree.trans {h1 h2 h3 : Heap} (p : ClsAgree h1 h2) (q : ClsAgree h2 h3) :
    ClsAgree h1 h3 := by
  intro a o h
  obtain ⟨o', ho', hc⟩ := p a o h
  obtain ⟨o2, ho2, hc2⟩ := q a o' ho'
  exact ⟨o2, ho2, hc2.trans hc⟩

theorem ClsAgree.append (hp l : Heap) : ClsAgree hp (hp ++ l) :=
  fun a o h => ⟨o, heapGet_append_of_some hp l a o h, rfl⟩

theorem ClsAgree.set (hp : Heap) (a : Nat) (o : InstObj) (f : Closure)
    (h : heapGet hp a = some o) : ClsAgree hp (heapSet hp a { o with fields := f }) := by
  intro b ob hb
  by_cases hab : a = b
  · subst hab
    rw [h] at hb
    cases hb
    exact ⟨{ o with fields := f }, heapGet_heapSet_self hp a o _ h, rfl⟩
  · exact ⟨ob, by rw [heapGet_heapSet_ne hp a b _ hab]; exact hb, rfl⟩

theorem clookup_foldl_cupdate_of_not_mem (ps : List (String × Holder)) (c0 : Closure)
    (k : String) (h : k ∉ ps.map Prod.fst) :
    clookup k (ps.foldl (fun c p => cupdate p.1 p.2 c) c0) = clookup k c0 := by
  induction ps generalizing c0 with
  | nil => rfl
  | cons p rest ih =>
    simp only [List.map_cons, List.mem_cons, not_or] at h
    rw [List.foldl_cons, ih _ h.2]
    exact clookup_cupdate_ne k p.1 p.2 c0 (fun he => h.1 he.symm)

theorem clookup_foldl_cupdate_of_mem (ps : List (String × Holder)) (c0 : Closure)
    (k : String) (v : Holder) (hnd : (ps.map Prod.fst).Nodup) (hmem : (k, v) ∈ ps) :
    clookup k (ps.foldl (fun c p => cupdate p.1 p.2 c) c0) = some v := by
  induction ps generalizing c0 with
  | nil => cases hmem
  | cons p rest ih =>
    simp only [List.map_cons, List.nodup_cons] at hnd
    rw [List.foldl_cons]
    rcases List.mem_cons.mp hmem with heq | hmem2
    · subst heq
      rw [clookup_foldl_cupdate_of_not_mem rest _ k hnd.1]
      exact clookup_cupdate_self k v c0
    · exact ih (cupdate p.1 p.2 c0) hnd.2 hmem2

theorem getMethod_eq_chain : ∀ (c : Cls) (m : String),
    Cls.GetMethod c m = c.chain.findSome? fun k => localMethod k.methods m
  | .mk nm ms p, m => by
    cases p with
    | none =>
      simp only [Cls.GetMethod, Cls.chain, Cls.methods, List.findSome?_cons,
        List.findSome?_nil]
      cases localMethod ms m <;> simp
    | some par =>
      have ih := getMethod_eq_chain par m
      simp only [Cls.GetMethod, Cls.chain, Cls.methods, List.findSome?_cons]
      cases localMethod ms m with
      | none => rw [ih]; rfl
      | some me => rfl

/-- C2: `Class::GetMethod` resolves a name by walking the parent chain
`C, parent(C), parent(parent(C)), …` and returning the first class's
local-index match, returning null exactly when no class on the chain
defines the name; in particular, when the class itself has no local
match, lookup on a child equals lookup on its parent, so a method
defined only in a parent is found on the child. -/
theorem getMethod_walks_parent_chain (c : Cls) (m : String) :
    c.GetMethod m = c.chain.findSome? (fun k => localMethod k.methods m)
    ∧ (c.GetMethod m = none ↔ ∀ k ∈ c.chain, localMethod k.methods m = none)
    ∧ (∀ par, c.parent = some par → localMethod c.methods m = none →
        c.GetMethod m = par.GetMethod m) := by
  refine ⟨getMethod_eq_chain c m, ?_, ?_⟩
  · rw [getMethod_eq_chain c m]
    exact List.findSome?_eq_none_iff
  · intro par hpar hloc
    cases c with
    | mk nm ms p =>
      simp only [Cls.parent] at hpar
      subst hpar
      simp only [Cls.methods] at hloc
      simp [Cls.GetMethod, hloc]

/-- Witness for C2 at a concrete two-class hierarchy: the method
`value`, defined only on `demoParent`, is found through `demoChild`. -/
theorem getMethod_walks_parent_chain_app :
    Cls.GetMethod demoChild "value" = Cls.GetMethod demoParent "value" :=
  (getMethod_walks_parent_chain demoChild "value").2.2 demoParent rfl rfl

/-- C3: wherever both sides are defined (evaluate to `.ok` rather than
throwing), the derived comparators of src/unnamed/part_000 satisfy
`NotEqual = !Equal`, `Greater = !(Less || Equal)` (with `||`
short-circuiting, so `Equal` only runs when `Less` was false),
`LessOrEqual = !Greater` and `GreaterOrEqual = !Less`, with identical
context/heap effects. -/
theorem comparators_are_negations (n : Nat) (a b : Holder) (ctx : Ctx) (hp : Heap) :
    (∀ e ctx1 hp1, EqualFn n a b ctx hp = (.ok e, ctx1, hp1) →
        NotEqualFn n a b ctx hp = (.ok (!e), ctx1, hp1))
    ∧ (∀ l ctx1 hp1, LessFn n a b ctx hp = (.ok l, ctx1, hp1) →
        (l = true → GreaterFn n a b ctx hp = (.ok false, ctx1, hp1))
        ∧ (l = false → ∀ e ctx2 hp2, EqualFn n a b ctx1 hp1 = (.ok e, ctx2, hp2) →
            GreaterFn n a b ctx hp = (.ok (!(l || e)), ctx2, hp2)))
    ∧ (∀ g ctx1 hp1, GreaterFn n a b ctx hp = (.ok g, ctx1, hp1) →
        LessOrEqualFn n a b ctx hp = (.ok (!g), ctx1, hp1))
    ∧ (∀ l ctx1 hp1, LessFn n a b ctx hp = (.ok l, ctx1, hp1) →
        GreaterOrEqualFn n a b ctx hp = (.ok (!l), ctx1, hp1)) := by
  refine ⟨?_, ?_, ?_, ?_⟩
  · intro e ctx1 hp1 h
    simp [NotEqualFn, h]
  · intro l ctx1 hp1 h
    refine ⟨?_, ?_⟩
    · intro hl
      subst hl
      simp [GreaterFn, h]
    · intro hl e ctx2 hp2 h2
      subst hl
      simp [GreaterFn, h, h2]
  · intro g ctx1 hp1 h
    simp [LessOrEqualFn, h]
  · intro l ctx1 hp1 h
    simp [GreaterOrEqualFn, h]

/-- Witness for C3 at Numbers 1 and 2: `Equal` is false and `Less` is
true there, so `NotEqual` is true, `Greater` is false, `LessOrEqual` is
true and `GreaterOrEqual` is false. -/
theorem comparators_are_negations_app :
    NotEqualFn 1 (some (.vnum 1)) (some (.vnum 2)) ⟨""⟩ [] = (.ok true, ⟨""⟩, [])
    ∧ GreaterFn 1 (some (.vnum 1)) (some (.vnum 2)) ⟨""⟩ [] = (.ok false, ⟨""⟩, [])
    ∧ LessOrEqualFn 1 (some (.vnum 1)) (some (.vnum 2)) ⟨""⟩ [] = (.ok true, ⟨""⟩, [])
    ∧ GreaterOrEqualFn 1 (some (.vnum 1)) (some (.vnum 2)) ⟨""⟩ [] = (.ok false, ⟨""⟩, []) :=
  ⟨(comparators_are_negations 1 (some (.vnum 1)) (some (.vnum 2)) ⟨""⟩ []).1 false ⟨""⟩ [] rfl,
   ((comparators_are_negations 1 (some (.vnum 1)) (some (.vnum 2)) ⟨""⟩ []).2.1 true ⟨""⟩ [] rfl).1 rfl,
   (comparators_are_negations 1 (some (.vnum 1)) (some (.vnum 2)) ⟨""⟩ []).2.2.1 false ⟨""⟩ []
     (((comparators_are_negations 1 (some (.vnum 1)) (some (.vnum 2)) ⟨""⟩ []).2.1 true ⟨""⟩ [] rfl).1 rfl),
   (comparators_are_negations 1 (some (.vnum 1)) (some (.vnum 2)) ⟨""⟩ []).2.2.2 true ⟨""⟩ [] rfl⟩

/-- C4: `IsTrue` maps an empty holder to false, a `Bool` to its value, a
`Number` to value-nonzero, a `String` to value-nonempty, and both a
`Class` and a `ClassInstance` to false. -/
theorem isTrue_by_kind (b : Bool) (n : Int) (s : String) (c : Cls) (a : Nat) :
    IsTrue none = false
    ∧ IsTrue (some (.vbool b)) = b
    ∧ IsTrue (some (.vnum n)) = decide (n ≠ 0)
    ∧ IsTrue (some (.vstr s)) = decide (s ≠ "")
    ∧ IsTrue (some (.vclass c)) = false
    ∧ IsTrue (some (.vinst a)) = false := by
  refine ⟨rfl, rfl, ?_, ?_, rfl, rfl⟩
  · by_cases h : n = 0 <;> simp [IsTrue, bne, h]
  · by_cases h : s = "" <;> simp [IsTrue, bne, h]

/-- C5 (counterexample to the claimed INDENT/DEDENT balance): when the
final source line is indented and not newline-terminated, its tokens
arrive in the same chunk as `Eof`, the line is not `IsEofOnly`, and the
drain-to-zero branch of `Lexer::NextToken` never runs: the input
`"x\n  y"` yields one `Indent` and no `Dedent`. -/
theorem indent_dedent_unbalanced_at_eof :
    tokenize 32 ['x', '\n', ' ', ' ', 'y']
      = .ok [.id "x", .newline, .indent, .id "y", .newline, .eof]
    ∧ ([Tok.id "x", .newline, .indent, .id "y", .newline, .eof].count .indent = 1
        ∧ [Tok.id "x", .newline, .indent, .id "y", .newline, .eof].count .dedent = 0) := by
  exact ⟨rfl, by decide, by decide⟩

/-- C7 (divisor 0 is not a typed runtime failure): `Div::Execute`
divides without checking the divisor, so `1 / 0` hits C++ undefined
behaviour (marked `.ub` in the model) instead of throwing a
runtime_error; on a nonzero divisor the result is the truncating
integer quotient, e.g. `(-7) / 2 = -3`. -/
theorem div_by_zero_is_undefined_behaviour :
    execStmt 2 (.div (.varValue ["a"]) (.varValue ["b"]))
        [("a", some (.vnum 1)), ("b", some (.vnum 0))] ⟨""⟩ []
      = (.error (.ub "integer division by zero"),
         [("a", some (.vnum 1)), ("b", some (.vnum 0))], ⟨""⟩, [])
    ∧ execStmt 2 (.div (.varValue ["a"]) (.varValue ["b"]))
        [("a", some (.vnum (-7))), ("b", some (.vnum 2))] ⟨""⟩ []
      = (.ok (some (.vnum (-3))),
         [("a", some (.vnum (-7))), ("b", some (.vnum 2))], ⟨""⟩, []) :=
  ⟨rfl, rfl⟩

/-- C8 (the line-buffered lexer does not reject a solitary `!`): on
input `"!x"` the dispatch in `TextLine::ReadLine` sees `peek() != '='`
and falls through to the generic branch, emitting `Char{'!'}`; only the
streaming draft's `ReadComparison` raises `LexerError "! without ="`. -/
theorem solitary_bang_emits_char_token :
    tokenize 32 ['!', 'x'] = .ok [.chr '!', .id "x", .newline, .eof]
    ∧ readComparisonStreaming '!' (some 'x') = .error (.lexError "! without =") :=
  ⟨rfl, rfl⟩

/-- C9 (number literals above `INT_MAX` are not tokenized):
`TextLine::ReadNumber` parses with `stoi`, whose range is the 32-bit
`int`, so the literal `2147483648` raises `std::out_of_range` while
`2147483647` still tokenizes exactly. -/
theorem number_literal_stoi_range :
    tokenize 32 ['2', '1', '4', '7', '4', '8', '3', '6', '4', '8'] = .error .stoiOutOfRange
    ∧ tokenize 32 ['2', '1', '4', '7', '4', '8', '3', '6', '4', '7']
        = .ok [.number 2147483647, .newline, .eof] :=
  ⟨rfl, rfl⟩

/-- Evaluation never changes the class of a live instance: it only
appends fresh instances or rewrites an instance's fields.  Proved for
all three mutually recursive evaluator functions by induction on fuel. -/
theorem exec_heap_clsAgree (n : Nat) :
    (∀ s cl ctx hp, ClsAgree hp (execStmt n s cl ctx hp).2.2.2)
    ∧ (∀ args cl ctx hp, ClsAgree hp (execArgs n args cl ctx hp).2.2.2)
    ∧ (∀ addr m as ctx hp, ClsAgree hp (callMethod n addr m as ctx hp).2.2) := by
  induction n with
  | zero =>
    exact ⟨fun _ _ _ hp => ClsAgree.refl hp, fun _ _ _ hp => ClsAgree.refl hp,
           fun _ _ _ _ hp => ClsAgree.refl hp⟩
  | succ n ih =>
    obtain ⟨ihS, ihA, ihC⟩ := ih
    refine ⟨?_, ?_, ?_⟩
    · intro s cl ctx hp
      cases s with
      | varValue ids => simpa [execStmt] using ClsAgree.refl hp
      | assign name rhs =>
        have h1 := ihS rhs cl ⟨name⟩ hp
        rcases hres : execStmt n rhs cl ⟨name⟩ hp with ⟨r, cl1, ctx1, hp1⟩
        rw [hres] at h1
        cases r <;> simp [execStmt, hres] <;> exact h1
      | fieldAssign ids f rhs =>
        cases hw : walkFields ids cl hp with
        | error e => simpa [execStmt, hw] using ClsAgree.refl hp
        | ok target =>
          have h1 := ihS rhs cl ctx hp
          rcases hres : execStmt n rhs cl ctx hp with ⟨r, cl1, ctx1, hp1⟩
          rw [hres] at h1
          cases r with
          | error e => simp [execStmt, hw, hres]; exact h1
          | ok v =>
            cases target with
            | none => simp [execStmt, hw, hres]; exact h1
            | some a2 =>
              cases hg : heapGet hp1 a2 with
              | none => simp [execStmt, hw, hres, hg]; exact h1
              | some obj =>
                simp [execStmt, hw, hres, hg]
                exact h1.trans (ClsAgree.set hp1 a2 obj _ hg)
      | newInstance cls args =>
        have hbase : ClsAgree hp (hp ++ [(⟨cls, []⟩ : InstObj)]) := ClsAgree.append hp _
        by_cases hm : cls.hasMethodArity "__init__" args.length
        · have hA := ihA args (cupdate ctx.selfName (some (.vinst hp.length)) cl) ctx
            (hp ++ [(⟨cls, []⟩ : InstObj)])
          rcases hargs : execArgs n args (cupdate ctx.selfName (some (.vinst hp.length)) cl) ctx
              (hp ++ [(⟨cls, []⟩ : InstObj)]) with ⟨ra, cl2, ctx2, hp2⟩
          rw [hargs] at hA
          cases ra with
          | error e =>
            simp [execStmt, hargs, hm]
            exact hbase.trans hA
          | ok actuals =>
            have hC := ihC hp.length "__init__" actuals ctx2 hp2
            rcases hcall : callMethod n hp.length "__init__" actuals ctx2 hp2 with ⟨rc, ctx3, hp3⟩
            rw [hcall] at hC
            cases rc with
            | error e =>
              simp [execStmt, hargs, hcall, hm]
              exact (hbase.trans hA).trans hC
            | ok v =>
              cases hlook : clookup ctx.selfName cl2 with
              | none =>
                simp [execStmt, hargs, hcall, hm, hlook]
                exact (hbase.trans hA).trans hC
              | some h2 =>
                simp [execStmt, hargs, hcall, hm, hlook]
                exact (hbase.trans hA).trans hC
        · simp [execStmt, hm]
          exact hbase
      | div lhs rhs =>
        have h1 := ihS lhs cl ctx hp
        rcases hres1 : execStmt n lhs cl ctx hp with ⟨r1, cl1, ctx1, hp1⟩
        rw [hres1] at h1
        cases r1 with
        | error e => simp [execStmt, hres1]; exact h1
        | ok lv =>
          have h2 := ihS rhs cl1 ctx1 hp1
          rcases hres2 : execStmt n rhs cl1 ctx1 hp1 with ⟨r2, cl2, ctx2, hp2⟩
          rw [hres2] at h2
          cases r2 with
          | error e => simp [execStmt, hres1, hres2]; exact h1.trans h2
          | ok rv =>
            have hh : (execStmt (n + 1) (.div lhs rhs) cl ctx hp).2.2.2 = hp2 := by
              simp only [execStmt, hres1, hres2]
              split
              · split <;> rfl
              · rfl
            rw [hh]
            exact h1.trans h2
    · intro args cl ctx hp
      cases args with
      | nil => simpa [execArgs] using ClsAgree.refl hp
      | cons a rest =>
        have h1 := ihS a cl ctx hp
        rcases hres1 : execStmt n a cl ctx hp with ⟨r1, cl1, ctx1, hp1⟩
        rw [hres1] at h1
        cases r1 with
        | error e => simp [execArgs, hres1]; exact h1
        | ok v =>
          have h2 := ihA rest cl1 ctx1 hp1
          rcases hres2 : execArgs n rest cl1 ctx1 hp1 with ⟨r2, cl2, ctx2, hp2⟩
          rw [hres2] at h2
          cases r2 with
          | error e => simp [execArgs, hres1, hres2]; exact h1.trans h2
          | ok vs => simp [execArgs, hres1, hres2]; exact h1.trans h2
    · intro addr m as ctx hp
      cases hg : heapGet hp addr with
      | none => simpa [callMethod, hg] using ClsAgree.refl hp
      | some obj =>
        by_cases hm : obj.cls.hasMethodArity m as.length
        · cases hgm : obj.cls.GetMethod m with
          | none => simpa [callMethod, hg, hm, hgm] using ClsAgree.refl hp
          | some me =>
            have h1 := ihS me.body (buildLocals addr me.formalParams as) ctx hp
            rcases hres : execStmt n me.body (buildLocals addr me.formalParams as) ctx hp
              with ⟨r, cl1, ctx1, hp1⟩
            rw [hres] at h1
            simp [callMethod, hg, hm, hgm, hres]
            exact h1
        · simpa [callMethod, hg, hm] using ClsAgree.refl hp

/-- C1: `ClassInstance::Call` on a method of matching arity builds a
fresh per-call closure in which `self` is bound to a shared holder of
the receiver and each formal parameter is bound to the corresponding
actual argument holder, executes the method body in exactly that
closure (discarding it afterwards), and leaves the method definition
stored in the class unchanged, so after the call the receiver's class
still resolves the same method for the same name. -/
theorem call_constructs_fresh_frame (n : Nat) (hp : Heap) (addr : Nat) (obj : InstObj)
    (mname : String) (actuals : List Holder) (ctx : Ctx) (me : Mthd)
    (hobj : heapGet hp addr = some obj)
    (hres : obj.cls.GetMethod mname = some me)
    (harity : me.formalParams.length = actuals.length)
    (hnodup : me.formalParams.Nodup)
    (hnself : "self" ∉ me.formalParams) :
    clookup "self" (buildLocals addr me.formalParams actuals) = some (some (.vinst addr))
    ∧ (∀ i (hi : i < me.formalParams.length),
        clookup (me.formalParams.get ⟨i, hi⟩) (buildLocals addr me.formalParams actuals)
          = some (actuals.get ⟨i, harity ▸ hi⟩))
    ∧ callMethod (n + 1) addr mname actuals ctx hp
        = ((execStmt n me.body (buildLocals addr me.formalParams actuals) ctx hp).1,
           (execStmt n me.body (buildLocals addr me.formalParams actuals) ctx hp).2.2.1,
           (execStmt n me.body (buildLocals addr me.formalParams actuals) ctx hp).2.2.2)
    ∧ (∀ r ctx1 hp1, callMethod (n + 1) addr mname actuals ctx hp = (r, ctx1, hp1) →
        ∃ obj2, heapGet hp1 addr = some obj2 ∧ obj2.cls.GetMethod mname = some me) := by
  have hfst : (me.formalParams.zip actuals).map Prod.fst = me.formalParams :=
    List.map_fst_zip _ _ (le_of_eq harity)
  have hhm : obj.cls.hasMethodArity mname actuals.length = true := by
    simp [Cls.hasMethodArity, hres, harity]
  refine ⟨?_, ?_, ?_, ?_⟩
  · rw [buildLocals, clookup_foldl_cupdate_of_not_mem _ _ _ (by rw [hfst]; exact hnself)]
    exact clookup_cupdate_self _ _ _
  · intro i hi
    have hizip : i < (me.formalParams.zip actuals).length := by
      rw [List.length_zip]
      omega
    have hg : (me.formalParams.zip actuals).get ⟨i, hizip⟩
        = (me.formalParams.get ⟨i, hi⟩, actuals.get ⟨i, harity ▸ hi⟩) := by
      simp [List.get_eq_getElem, List.getElem_zip]
    have hmem := hg ▸ List.get_mem (me.formalParams.zip actuals) i hizip
    exact clookup_foldl_cupdate_of_mem _ _ _ _ (by rw [hfst]; exact hnodup) hmem
  · rcases hbody : execStmt n me.body (buildLocals addr me.formalParams actuals) ctx hp
      with ⟨r, clx, ctx1, hp1⟩
    simp [callMethod, hobj, hhm, hres, hbody]
  · intro r ctx1 hp1 hcall
    have hag := (exec_heap_clsAgree (n + 1)).2.2 addr mname actuals ctx hp
    rw [hcall] at hag
    obtain ⟨obj2, hget2, hcls⟩ := hag addr obj hobj
    exact ⟨obj2, hget2, by rw [hcls, hres]⟩

/-- Witness for C1: a call to `Box.get(p)` with argument 5 binds `self`
to the receiver's address and `p` to the argument in the fresh per-call
closure, and afterwards the class still resolves `get` to `demoMethod`. -/
theorem call_constructs_fresh_frame_app :
    clookup "self" (buildLocals 0 demoMethod.formalParams [some (.vnum 5)])
      = some (some (.vinst 0))
    ∧ clookup (demoMethod.formalParams.get ⟨0, by decide⟩)
        (buildLocals 0 demoMethod.formalParams [some (.vnum 5)]) = some (some (.vnum 5))
    ∧ (∃ obj2, heapGet [(⟨demoCls, []⟩ : InstObj)] 0 = some obj2
        ∧ obj2.cls.GetMethod "get" = some demoMethod) := by
  have h := call_constructs_fresh_frame 1 [(⟨demoCls, []⟩ : InstObj)] 0 ⟨demoCls, []⟩ "get"
    [some (.vnum 5)] ⟨""⟩ demoMethod rfl rfl rfl (by simp [demoMethod, Mthd.formalParams])
    (by simp [demoMethod, Mthd.formalParams])
  exact ⟨h.1, h.2.1 0 (by decide), h.2.2.2 _ _ _ rfl⟩

/-- C6: the self-name threading.  `Assignment("x", rhs)` stores `"x"`
into the context's self-name slot before `rhs` runs, and
`NewInstance` inserts the freshly constructed instance into the
caller's closure under that name before evaluating the constructor
arguments and before `__init__` is invoked: in `x = C(x)` against an
arbitrary initial closure, context and heap, the constructor argument
`x` already resolves to the new instance (at the fresh address
`hp.length`), which `__init__` then stores into the field `mirror`. -/
theorem assignment_self_name_reaches_new_instance (n : Nat) (cl : Closure) (ctx : Ctx)
    (hp : Heap) :
    execStmt (n + 8) mirrorProg cl ctx hp
      = (.ok (some (.vinst hp.length)),
         cupdate "x" (some (.vinst hp.length)) (cupdate "x" (some (.vinst hp.length)) cl),
         ⟨"x"⟩,
         hp ++ [⟨mirrorCls, [("mirror", some (.vinst hp.length))]⟩]) := by
  simp [mirrorProg, mirrorCls, mirrorInit, execStmt, execArgs, callMethod, walkVar, walkFields,
    buildLocals, cupdate, clookup, Cls.hasMethodArity, Cls.GetMethod, localMethod,
    Mthd.name, Mthd.formalParams, Mthd.body, heapGet_heapSet_self]

/-- C10: `NewInstance::Execute` is not atomic with respect to the
caller's closure: in `x = C(nope)` the binding of `x` is overwritten
with the fresh, never-initialized instance before the argument is
evaluated, so when the argument raises an unknown-variable error the
error propagates while the closure is left holding the fresh instance
(the previous binding of `x` is already gone). -/
theorem newInstance_clobbers_binding_before_args (n : Nat) (cl : Closure) (ctx : Ctx)
    (hp : Heap) (hmiss : clookup "nope" cl = none) :
    execStmt (n + 8) clobberProg cl ctx hp
      = (.error (.rtError "Uncknown variable name"),
         cupdate "x" (some (.vinst hp.length)) cl,
         ⟨"x"⟩,
         hp ++ [⟨mirrorCls, []⟩])
    ∧ clookup "x" (cupdate "x" (some (.vinst hp.length)) cl)
        = some (some (.vinst hp.length)) := by
  have hne : clookup "nope" (cupdate "x" (some (.vinst hp.length)) cl) = none := by
    rw [clookup_cupdate_ne _ _ _ _ (by decide)]
    exact hmiss
  refine ⟨?_, clookup_cupdate_self _ _ _⟩
  simp [clobberProg, mirrorCls, mirrorInit, execStmt, execArgs, callMethod, walkVar,
    Cls.hasMethodArity, Cls.GetMethod, localMethod, Mthd.name, Mthd.formalParams, hne]

/-- Witness for C10: starting from the closure `x ↦ 7` (and `nope`
unbound), running `x = C(nope)` raises the unknown-variable error and
leaves `x` bound to the fresh instance at address 0 — the Number 7 is
lost. -/
theorem newInstance_clobbers_binding_before_args_app :
    execStmt 8 clobberProg [("x", some (.vnum 7))] ⟨"z"⟩ []
      = (.error (.rtError "Uncknown variable name"),
         [("x", some (.vinst 0))], ⟨"x"⟩, [⟨mirrorCls, []⟩])
    ∧ clookup "x" [("x", some (Value.vinst 0))] = some (some (.vinst 0)) := by
  have h := newInstance_clobbers_binding_before_args 0 [("x", some (.vnum 7))] ⟨"z"⟩ [] rfl
  exact ⟨h.1, h.2⟩

end Mython
